import Mathlib

/-!
Shallow embedding of `src/sirsi_entry.py` (plus the pieces of `src/main.py`
that feed it) from the RainingStuff/sirsi-library repository.

Modelling conventions:
* Python strings are modelled as `List Char`.
* Python's regex classes `\s` and `\d` and the functions `str.strip` /
  `str.split` are modelled over the ASCII character set in which Sirsi
  reports are written (`main.py` normalises line endings to `\n` before the
  core parser runs, and the report format is plain ASCII), so `\s` is the
  six ASCII whitespace characters and `\d` is `0`-`9`.
* Each `re.search` call in the source uses a pattern whose quantified
  atoms (`\d+`, `\s+`, `\S+`, `[^"]+`, `\s*`) are always followed either by
  a literal whose first character the atom's class cannot match, or by the
  end of the pattern.  For such patterns Python's leftmost-then-greedy
  backtracking search collapses to a deterministic scan: each quantified
  atom consumes exactly the maximal run of its character class, and the
  overall match is attempted at every start position from the left.  The
  `match*At` functions below implement that scan and the `searchWith`
  combinator implements leftmost search.
* Fallible constructors (`raise ValueError`) are modelled with `Option`.
-/

/-- Python's ASCII whitespace test: the characters matched by `\s` and
stripped by `str.strip()` for ASCII text. -/
def pySpace (c : Char) : Bool :=
  c = ' ' || c = '\t' || c = '\n' || c = '\r' || c = '\x0b' || c = '\x0c'

/-- Python's ASCII digit test, the class `\d` for ASCII text. -/
def pyDigit (c : Char) : Bool :=
  decide (48 ≤ c.toNat ∧ c.toNat ≤ 57)

/-- Python `str.strip()`: remove leading and trailing whitespace. -/
def pyStrip (s : List Char) : List Char :=
  ((s.dropWhile pySpace).reverse.dropWhile pySpace).reverse

/-- Python `str.split(sep)` for a one-character separator `sep` and no
maxsplit bound (the form used by `AuthorLine.__init__`). -/
def pySplitChar (sep : Char) : List Char → List (List Char)
  | [] => [[]]
  | c :: rest =>
    match pySplitChar sep rest with
    | [] => [[c]]
    | h :: t => if c = sep then [] :: h :: t else (c :: h) :: t

/-- Python `str.split(sep, maxsplit)` for a one-character separator: at most
`maxs` splits are performed, the remainder is kept whole. -/
def pySplitMax (sep : Char) : Nat → List Char → List (List Char)
  | _, [] => [[]]
  | 0, s => [s]
  | m + 1, c :: rest =>
    if c = sep then [] :: pySplitMax sep m rest
    else
      match pySplitMax sep (m + 1) rest with
      | [] => [[c]]
      | h :: t => (c :: h) :: t

/-- Match a literal at the head of the input, returning the rest. -/
def dropLit : List Char → List Char → Option (List Char)
  | [], s => some s
  | _ :: _, [] => none
  | a :: ls, b :: bs => if a = b then dropLit ls bs else none

/-- Consume the maximal nonempty run of characters satisfying `p` (a `+`
quantifier over a character class, in the deterministic collapse described
in the header comment). -/
def grab1 (p : Char → Bool) (s : List Char) : Option (List Char × List Char) :=
  if s.takeWhile p = [] then none else some (s.takeWhile p, s.dropWhile p)

/-- Leftmost search: try the position matcher `m` at every suffix, leftmost
first — the semantics of Python `re.search`. -/
def searchWith {β : Type} (m : List Char → Option β) : List Char → Option β
  | [] => m []
  | c :: rest =>
    match m (c :: rest) with
    | some r => some r
    | none => searchWith m rest

/-- Decimal digit character, `48 + d` as a character (used for `str(int)`). -/
def digitChar (d : Nat) : Char := Char.ofNat (48 + d)

/-- Fuel-driven decimal rendering worker; `fuel > n` always suffices. -/
def natReprAux : Nat → Nat → List Char → List Char
  | 0, _, acc => acc
  | fuel + 1, n, acc =>
    if n < 10 then digitChar n :: acc
    else natReprAux fuel (n / 10) (digitChar (n % 10) :: acc)

/-- Python `str(n)` for a nonnegative integer: decimal, no leading zeros. -/
def natRepr (n : Nat) : List Char := natReprAux (n + 1) n []

/-- Python `int(s)` for a string of ASCII digits. -/
def digitsToNat (ds : List Char) : Nat :=
  ds.foldl (fun a c => 10 * a + (c.toNat - 48)) 0

/-- Left-justify in a field of width `w`: Python's `{x:<w}` format. The
width is a minimum; longer content is emitted in full, never truncated. -/
def padTo (w : Nat) (s : List Char) : List Char :=
  s ++ List.replicate (w - s.length) ' '

/-- The `CopyLine` record of `sirsi_entry.py`.  The source field `type` is a
Lean keyword and is called `ctype` here; `main_location` / `sub_location`
are the derived fields, defined below as functions of `location` (the
source computes them from `location` in `__init__` and never mutates). -/
structure CopyLine where
  copies : Nat
  item_id : List Char
  ctype : List Char
  location : List Char
deriving Repr, DecidableEq

/-- Attempt the pattern
`copy:(\d+)\s+item ID:(\S+)\s+type:(\S+)\s+location:(\S+)` at the start of
`s`, in the deterministic collapsed form (see header comment): every `+`
run is maximal because each is followed by a literal starting with a
character outside the run's class. -/
def matchCopyAt (s : List Char) :
    Option (List Char × List Char × List Char × List Char) :=
  (dropLit "copy:".toList s).bind fun s1 =>
  (grab1 pyDigit s1).bind fun p1 =>
  (grab1 pySpace p1.2).bind fun q1 =>
  (dropLit "item ID:".toList q1.2).bind fun s2 =>
  (grab1 (fun c => !pySpace c) s2).bind fun p2 =>
  (grab1 pySpace p2.2).bind fun q2 =>
  (dropLit "type:".toList q2.2).bind fun s3 =>
  (grab1 (fun c => !pySpace c) s3).bind fun p3 =>
  (grab1 pySpace p3.2).bind fun q3 =>
  (dropLit "location:".toList q3.2).bind fun s4 =>
  (grab1 (fun c => !pySpace c) s4).map fun p4 =>
  (p1.1, p2.1, p3.1, p4.1)

/-- `CopyLine.__init__`: `re.search` of the copy-line pattern anywhere in
the line, else `ValueError` (modelled as `none`); group 1 through `int`. -/
def CopyLine.parse (line : List Char) : Option CopyLine :=
  match searchWith matchCopyAt line with
  | none => none
  | some (d, i, t, l) =>
    some { copies := digitsToNat d, item_id := i, ctype := t, location := l }

/-- Derived field `main_location`: the part of `location` before the first
`-`, or all of it when no hyphen occurs (`str.split("-", 1)` semantics). -/
def CopyLine.main_location (cl : CopyLine) : List Char :=
  cl.location.takeWhile (fun c => c != '-')

/-- Derived field `sub_location`: the part after the first `-` when a
hyphen occurs, else `None`. -/
def CopyLine.sub_location (cl : CopyLine) : Option (List Char) :=
  if '-' ∈ cl.location then
    some ((cl.location.dropWhile (fun c => c != '-')).tail)
  else none

/-- `CopyLine.__str__`: the `COPY_LINE_FMT` fixed-width render — a 5-space
indent and the four labelled fields left-justified to widths 5/18/12/12. -/
def CopyLine.render (cl : CopyLine) : List Char :=
  "     copy:".toList ++ padTo 5 (natRepr cl.copies)
    ++ "item ID:".toList ++ padTo 18 cl.item_id
    ++ "type:".toList ++ padTo 12 cl.ctype
    ++ "location:".toList ++ padTo 12 cl.location

/-- The `AuthorLine` record: `last_name`, `first_name`, optional
`birth_year` (stored without its trailing `-` marker). -/
structure AuthorLine where
  last_name : List Char
  first_name : List Char
  birth_year : Option (List Char)
deriving Repr, DecidableEq

/-- `AuthorLine.__init__`: split the text on every `","`, strip each part;
`parts[0]` → `last_name`, `parts[1]` (if present) → `first_name`,
`parts[2]` (if present) → `birth_year` with its last character removed
(`[:-1]`).  The split list is never empty, so the `getD 0` default is never
used (Python indexes `parts[0]` unconditionally). -/
def AuthorLine.parse (text : List Char) : AuthorLine :=
  let parts := (pySplitChar ',' text).map pyStrip
  { last_name := parts.getD 0 []
    first_name := if 1 < parts.length then parts.getD 1 [] else []
    birth_year :=
      if 2 < parts.length then some ((parts.getD 2 []).dropLast) else none }

/-- `AuthorLine.__str__`. -/
def AuthorLine.render (a : AuthorLine) : List Char :=
  match a.birth_year with
  | some y =>
      "  ".toList ++ a.last_name ++ ", ".toList ++ a.first_name
        ++ ", ".toList ++ y ++ ['-']
  | none => "  ".toList ++ a.last_name ++ ", ".toList ++ a.first_name

/-- Modelled from the spec wording of claim C5 (for comparison with the
code): split on `","` into at most 3 parts — i.e. `split(",", 2)` — each
part trimmed, with the same field assignment as `AuthorLine.parse`. -/
def specAuthorParse (text : List Char) : AuthorLine :=
  let parts := (pySplitMax ',' 2 text).map pyStrip
  { last_name := parts.getD 0 []
    first_name := if 1 < parts.length then parts.getD 1 [] else []
    birth_year :=
      if 2 < parts.length then some ((parts.getD 2 []).dropLast) else none }

/-- The `TitleStatement` record: `title` and `author` (empty when the
fragment has no `/` separator). -/
structure TitleStatement where
  title : List Char
  author : List Char
deriving Repr, DecidableEq

/-- `TitleStatement.__init__`: split at the first `/` when one occurs
(`split("/", 1)`), stripping both sides; otherwise the whole stripped text
is the title and the author is empty. -/
def TitleStatement.parse (text : List Char) : TitleStatement :=
  if '/' ∈ text then
    { title := pyStrip (text.takeWhile (fun c => c != '/'))
      author := pyStrip ((text.dropWhile (fun c => c != '/')).tail) }
  else
    { title := pyStrip text, author := [] }

/-- `TitleStatement.__str__`: the separator is always emitted, even for an
empty author. -/
def TitleStatement.render (t : TitleStatement) : List Char :=
  "  ".toList ++ t.title ++ " / ".toList ++ t.author

/-- The `PickupLine` record: quoted pickup library and discharge date. -/
structure PickupLine where
  pickup_library : List Char
  discharge_date : List Char
deriving Repr, DecidableEq

/-- Attempt the pattern
`Pickup library:"([^"]+)"\s+Date of discharge:(\S+)` at the start of `s`,
in the deterministic collapsed form ( `[^"]+` is followed by `"`, `\s+` by
`D`, `\S+` ends the pattern, so every run is maximal). -/
def matchPickupAt (s : List Char) : Option (List Char × List Char) :=
  (dropLit "Pickup library:\"".toList s).bind fun s1 =>
  (grab1 (fun c => c != '"') s1).bind fun p1 =>
  (dropLit "\"".toList p1.2).bind fun s2 =>
  (grab1 pySpace s2).bind fun q1 =>
  (dropLit "Date of discharge:".toList q1.2).bind fun s3 =>
  (grab1 (fun c => !pySpace c) s3).map fun p2 =>
  (p1.1, p2.1)

/-- `PickupLine.__init__`: `re.search` of the pickup pattern, else
`ValueError` (modelled as `none`). -/
def PickupLine.parse (line : List Char) : Option PickupLine :=
  match searchWith matchPickupAt line with
  | none => none
  | some (lib, d) => some { pickup_library := lib, discharge_date := d }

/-- Left segment of the rendered pickup line. -/
def PickupLine.left (p : PickupLine) : List Char :=
  "Pickup library:\"".toList ++ p.pickup_library ++ ['"']

/-- Right segment of the rendered pickup line. -/
def PickupLine.right (p : PickupLine) : List Char :=
  "Date of discharge:".toList ++ p.discharge_date

/-- `PickupLine.__str__`: 2-space indent, left segment, padding of
`max(1, 80 - 2 - len(left) - len(right))` spaces, right segment.  Python's
`max(1, x)` with possibly negative `x` equals `max 1` of the truncated
natural subtraction used here. -/
def PickupLine.render (p : PickupLine) : List Char :=
  "  ".toList ++ p.left
    ++ List.replicate (max 1 (80 - 2 - p.left.length - p.right.length)) ' '
    ++ p.right

/-- The `SirsiEntry` record: key line plus the four parsed lines. -/
structure SirsiEntry where
  alpha_key : List Char
  author_line : AuthorLine
  title_statement : TitleStatement
  copy_line : CopyLine
  pickup_line : PickupLine
deriving Repr, DecidableEq

/-- Python `str.splitlines()` restricted to `\n` line endings (`main.py`
normalises `\r\n` and `\r` to `\n` before the core parser runs).  The
block is stripped before this is applied, so the stripped-nonempty case
has no trailing newline and agrees with `split("\n")`; the empty case
differs from Python only in producing `[""]` instead of `[]`, which leaves
every `len(lines) < 5` test unchanged. -/
def splitLines (s : List Char) : List (List Char) :=
  pySplitChar '\n' s

/-- `SirsiEntry.__init__`: strip the raw block, split into lines, fail when
fewer than 5 lines remain; lines 0-2 are stripped and parsed by the
never-failing parsers, lines 3 and 4 (not stripped) by the fallible
copy-line and pickup-line parsers, whose failure aborts the entry. -/
def SirsiEntry.parse (raw_block : List Char) : Option SirsiEntry :=
  let lines := splitLines (pyStrip raw_block)
  if lines.length < 5 then none
  else
    match CopyLine.parse (lines.getD 3 []) with
    | none => none
    | some cl =>
      match PickupLine.parse (lines.getD 4 []) with
      | none => none
      | some pl =>
        some { alpha_key := pyStrip (lines.getD 0 [])
               author_line := AuthorLine.parse (pyStrip (lines.getD 1 []))
               title_statement := TitleStatement.parse (pyStrip (lines.getD 2 []))
               copy_line := cl
               pickup_line := pl }

/-- The `SirsiReport` record: verbatim header plus ordered entries. -/
structure SirsiReport where
  header : List Char
  entries : List SirsiEntry
deriving Repr, DecidableEq

/-- Attempt the `HEADER_PATTERN` of `SirsiParser.parse` at the start of
`s`, returning the matched text (`group(0)`) and the rest.  In the
collapsed deterministic form, each whitespace region
`\s*\n\s*\n?\s*` / `\s*\n` duo between two literals consumes the entire
maximal whitespace run, which must contain at least one newline; `\s+`
consumes a maximal nonempty run; `[^"]+` a maximal nonempty quote-free
run; the trailing `\s*` a maximal possibly-empty run. -/
def matchHeaderAt (s : List Char) : Option (List Char × List Char) :=
  let w1 := s.takeWhile pySpace
  (dropLit "HOLD PICKUP LIST".toList (s.dropWhile pySpace)).bind fun r1 =>
  let w2 := r1.takeWhile pySpace
  if '\n' ∈ w2 then
    (dropLit "Produced".toList (r1.dropWhile pySpace)).bind fun r2 =>
    (grab1 pySpace r2).bind fun q1 =>
    (dropLit "\"".toList q1.2).bind fun r3 =>
    (grab1 (fun c => c != '"') r3).bind fun p1 =>
    (dropLit "\"".toList p1.2).bind fun r4 =>
    let w4 := r4.takeWhile pySpace
    if '\n' ∈ w4 then
      (dropLit "Library:".toList (r4.dropWhile pySpace)).bind fun r5 =>
      (grab1 pySpace r5).bind fun q2 =>
      (dropLit "\"".toList q2.2).bind fun r6 =>
      (grab1 (fun c => c != '"') r6).bind fun p2 =>
      (dropLit "\"".toList p2.2).map fun r7 =>
      let w6 := r7.takeWhile pySpace
      (w1 ++ "HOLD PICKUP LIST".toList ++ w2 ++ "Produced".toList ++ q1.1
        ++ ['"'] ++ p1.1 ++ ['"'] ++ w4 ++ "Library:".toList ++ q2.1
        ++ ['"'] ++ p2.1 ++ ['"'] ++ w6,
       r7.dropWhile pySpace)
    else none
  else none

/-- Python `text.split("\n\n")`: blocks delimited by blank lines. -/
def splitOn2NL : List Char → List (List Char)
  | [] => [[]]
  | '\n' :: '\n' :: rest => [] :: splitOn2NL rest
  | c :: rest =>
    match splitOn2NL rest with
    | [] => [[c]]
    | h :: t => (c :: h) :: t

/-- The block loop of `SirsiParser.parse`: try `SirsiEntry` on each block,
keep successes, silently skip failures (`except ValueError: continue`). -/
def parseBlocks : List (List Char) → List SirsiEntry
  | [] => []
  | b :: bs =>
    match SirsiEntry.parse b with
    | some e => e :: parseBlocks bs
    | none => parseBlocks bs

/-- `SirsiParser.parse`: capture the first header-pattern match verbatim
(or the empty string), split the whole text on blank lines, drop blocks
that strip to empty, and run the block loop. -/
def SirsiParser.parse (text : List Char) : SirsiReport :=
  let header :=
    match searchWith matchHeaderAt text with
    | some (m, _) => m
    | none => []
  let blocks := (splitOn2NL text).filter (fun b => pyStrip b ≠ [])
  { header := header, entries := parseBlocks blocks }

/-- Strict lexicographic comparison of strings by code point: Python's
`<` on `str` (restricted, like the rest of the model, to the code points
actually compared here). -/
def listCharLt : List Char → List Char → Bool
  | [], [] => false
  | [], _ :: _ => true
  | _ :: _, [] => false
  | a :: as, b :: bs =>
    decide (a.toNat < b.toNat) || (a == b && listCharLt as bs)

/-- The location rank used by both sort methods:
`sort_order.index(loc) if loc in sort_order else len(sort_order)`. -/
def locIndex (sort_order : List (List Char)) (loc : List Char) : Nat :=
  if loc ∈ sort_order then sort_order.indexOf loc else sort_order.length

/-- The key function of `sort_by_location_and_author`:
`(loc_index, last, first)`. -/
def entryKey (sort_order : List (List Char)) (e : SirsiEntry) :
    Nat × List Char × List Char :=
  (locIndex sort_order e.copy_line.main_location,
   e.author_line.last_name, e.author_line.first_name)

/-- Python's `<=` on key triples: lexicographic, components compared by
`<` on integers and code-point `<` on strings. -/
def keyLe (k1 k2 : Nat × List Char × List Char) : Prop :=
  k1.1 < k2.1 ∨ (k1.1 = k2.1 ∧
    (listCharLt k1.2.1 k2.2.1 = true ∨ (k1.2.1 = k2.2.1 ∧
      (listCharLt k1.2.2 k2.2.2 = true ∨ k1.2.2 = k2.2.2))))

instance keyLe.instDecidableRel : DecidableRel keyLe := fun k1 k2 => by
  unfold keyLe
  infer_instance

/-- Python's `<=` on `(last_name, first_name)` pairs. -/
def namePairLe (e1 e2 : SirsiEntry) : Prop :=
  listCharLt e1.author_line.last_name e2.author_line.last_name = true ∨
    (e1.author_line.last_name = e2.author_line.last_name ∧
      (listCharLt e1.author_line.first_name e2.author_line.first_name = true ∨
        e1.author_line.first_name = e2.author_line.first_name))

/-- Stable insertion, the building block of the stable-sort model: a new
element goes after every already-placed element whose key is `≤` its key
(so equal-keyed elements keep encounter order). -/
def insertS {α κ : Type} (key : α → κ) (kle : κ → κ → Prop)
    [DecidableRel kle] (x : α) : List α → List α
  | [] => [x]
  | y :: ys =>
    if kle (key y) (key x) then y :: insertS key kle x ys else x :: y :: ys

/-- Stable sort by key: fold the input in encounter order through stable
insertion.  Python's `list.sort(key=f)` is specified as a stable sort by
exactly this comparison; every stable sort computes the same list, so the
in-place Timsort of the source is modelled by this function. -/
def sortK {α κ : Type} (key : α → κ) (kle : κ → κ → Prop)
    [DecidableRel kle] (l : List α) : List α :=
  l.foldl (fun s x => insertS key kle x s) []

/-- `SirsiReport.sort_by_location_and_author(sort_order)`. -/
def SirsiReport.sort_by_location_and_author (r : SirsiReport)
    (sort_order : List (List Char)) : SirsiReport :=
  { r with entries := sortK (entryKey sort_order) keyLe r.entries }


/-- A minimal well-formed header block in the shape matched by
`HEADER_PATTERN`: the three mandatory lines with single spaces and
newlines and no optional blank lines. -/
def headerBlock (p l : List Char) : List Char :=
  "HOLD PICKUP LIST\nProduced \"".toList ++ p ++ "\"\nLibrary: \"".toList
    ++ l ++ "\"\n".toList


/-- The text of a minimal header block followed by `rest`, written in the
right-nested form the position matcher consumes. -/
def headerTextFrom (p l rest : List Char) : List Char :=
  ("HOLD PICKUP LIST".toList ++ ('\n' :: ("Produced".toList ++ (' ' :: ('"' :: (p ++ ('"' :: ('\n' :: ("Library:".toList ++ (' ' :: ('"' :: (l ++ ('"' :: ('\n' :: rest))))))))))))))

/-- The text the header pattern captures from such a block: the block up
to and including its final newline. -/
def headerMatchText (p l : List Char) : List Char :=
  ("HOLD PICKUP LIST".toList ++ ('\n' :: ("Produced".toList ++ (' ' :: ('"' :: (p ++ ('"' :: ('\n' :: ("Library:".toList ++ (' ' :: ('"' :: (l ++ ('"' :: ['\n'])))))))))))))

theorem takeWhile_append_of {p : Char → Bool} {a b : List Char}
    (ha : ∀ c ∈ a, p c = true) (hb : ∀ c, b.head? = some c → p c = false) :
    (a ++ b).takeWhile p = a ∧ (a ++ b).dropWhile p = b := by
  induction a with
  | nil =>
    simp only [List.nil_append]
    cases b with
    | nil => simp
    | cons c cs =>
      have hc := hb c rfl
      simp [List.takeWhile_cons, List.dropWhile_cons, hc]
  | cons c cs ih =>
    have hc := ha c (List.mem_cons_self _ _)
    have ih' := ih (fun x hx => ha x (List.mem_cons_of_mem _ hx))
    simp [List.takeWhile_cons, List.dropWhile_cons, hc, ih'.1, ih'.2]

theorem grab1_append {p : Char → Bool} {a b : List Char} (hne : a ≠ [])
    (ha : ∀ c ∈ a, p c = true) (hb : ∀ c, b.head? = some c → p c = false) :
    grab1 p (a ++ b) = some (a, b) := by
  obtain ⟨h1, h2⟩ := takeWhile_append_of ha hb
  simp [grab1, h1, h2, hne]

theorem grab1_eq_some {p : Char → Bool} {s : List Char} {t r : List Char}
    (h : grab1 p s = some (t, r)) :
    t ≠ [] ∧ (∀ c ∈ t, p c = true) ∧ s = t ++ r := by
  unfold grab1 at h
  by_cases he : s.takeWhile p = []
  · simp [he] at h
  · simp only [he, if_false, Option.some.injEq, Prod.mk.injEq] at h
    obtain ⟨ht, hr⟩ := h
    refine ⟨ht ▸ he, ?_, ?_⟩
    · intro c hc
      exact List.mem_takeWhile_imp (ht ▸ hc)
    · rw [← ht, ← hr, List.takeWhile_append_dropWhile]

theorem dropLit_append (l r : List Char) : dropLit l (l ++ r) = some r := by
  induction l with
  | nil => rfl
  | cons c cs ih => simp [dropLit, ih]

theorem dropLit_eq_some {l s r : List Char} (h : dropLit l s = some r) :
    s = l ++ r := by
  induction l generalizing s with
  | nil =>
    simp only [dropLit, Option.some.injEq] at h
    simp [h]
  | cons c cs ih =>
    cases s with
    | nil => simp [dropLit] at h
    | cons b bs =>
      by_cases hcb : c = b
      · subst hcb
        simp only [dropLit, if_pos rfl] at h
        simp [ih h]
      · simp [dropLit, hcb] at h

theorem head?_replicate_append {k : Nat} {x : List Char} (hk : k ≠ 0) :
    (List.replicate k ' ' ++ x).head? = some ' ' := by
  cases k with
  | zero => omega
  | succ k => simp [List.replicate]

theorem mem_replicate_space {k : Nat} {c : Char}
    (h : c ∈ List.replicate k ' ') : c = ' ' :=
  (List.eq_of_mem_replicate h)

theorem digitChar_toNat {d : Nat} (h : d < 10) : (digitChar d).toNat = 48 + d := by
  interval_cases d <;> rfl

theorem pyDigit_digitChar {d : Nat} (h : d < 10) : pyDigit (digitChar d) = true := by
  interval_cases d <;> decide

theorem natReprAux_acc (fuel : Nat) : ∀ (n : Nat) (acc : List Char),
    natReprAux fuel n acc = natReprAux fuel n [] ++ acc := by
  induction fuel with
  | zero => intro n acc; simp [natReprAux]
  | succ f ih =>
    intro n acc
    by_cases h : n < 10
    · simp [natReprAux, h]
    · simp only [natReprAux, h, if_false]
      rw [ih (n / 10) (digitChar (n % 10) :: acc), ih (n / 10) [digitChar (n % 10)]]
      simp

theorem natReprAux_fuel {f g n : Nat} (hf : n < f) (hg : n < g) :
    natReprAux f n [] = natReprAux g n [] := by
  induction f generalizing g n with
  | zero => omega
  | succ f ih =>
    cases g with
    | zero => omega
    | succ g =>
      by_cases h : n < 10
      · simp [natReprAux, h]
      · simp only [natReprAux, h, if_false]
        rw [natReprAux_acc f, natReprAux_acc g,
          ih (show n / 10 < f by omega) (show n / 10 < g by omega)]

theorem natRepr_lt10 {n : Nat} (h : n < 10) : natRepr n = [digitChar n] := by
  simp [natRepr, natReprAux, h]

theorem natRepr_ge10 {n : Nat} (h : 10 ≤ n) :
    natRepr n = natRepr (n / 10) ++ [digitChar (n % 10)] := by
  have h' : ¬ n < 10 := by omega
  rw [natRepr]
  simp only [natReprAux, h', if_false]
  rw [natReprAux_acc, natReprAux_fuel (f := n) (g := n / 10 + 1) (by omega) (by omega)]
  rfl

theorem digitsToNat_append_single (l : List Char) (c : Char) :
    digitsToNat (l ++ [c]) = 10 * digitsToNat l + (c.toNat - 48) := by
  simp [digitsToNat, List.foldl_append]

theorem digitsToNat_natRepr (n : Nat) : digitsToNat (natRepr n) = n := by
  induction n using Nat.strong_induction_on with
  | _ n ih =>
    by_cases h : n < 10
    · rw [natRepr_lt10 h]
      simp [digitsToNat, digitChar_toNat h]
    · rw [natRepr_ge10 (by omega), digitsToNat_append_single,
        ih (n / 10) (by omega), digitChar_toNat (by omega)]
      omega

theorem natRepr_digits (n : Nat) : ∀ c ∈ natRepr n, pyDigit c = true := by
  induction n using Nat.strong_induction_on with
  | _ n ih =>
    by_cases h : n < 10
    · rw [natRepr_lt10 h]
      intro c hc
      rw [List.mem_singleton] at hc
      subst hc
      exact pyDigit_digitChar h
    · rw [natRepr_ge10 (by omega)]
      intro c hc
      rcases List.mem_append.mp hc with hc | hc
      · exact ih (n / 10) (by omega) c hc
      · rw [List.mem_singleton] at hc
        subst hc
        exact pyDigit_digitChar (by omega)

theorem natRepr_ne_nil (n : Nat) : natRepr n ≠ [] := by
  by_cases h : n < 10
  · rw [natRepr_lt10 h]; simp
  · rw [natRepr_ge10 (by omega)]; simp

theorem searchWith_eq_some {β : Type} {m : List Char → Option β}
    {s : List Char} {r : β} (h : searchWith m s = some r) :
    ∃ t, m t = some r := by
  induction s with
  | nil => exact ⟨[], h⟩
  | cons c cs ih =>
    simp only [searchWith] at h
    split at h
    · next x heq => exact ⟨c :: cs, heq.trans h⟩
    · exact ih h

theorem searchWith_of_match {β : Type} {m : List Char → Option β}
    {s : List Char} {r : β} (h : m s = some r) : searchWith m s = some r := by
  cases s with
  | nil => exact h
  | cons c cs => simp [searchWith, h]

theorem searchWith_cons_of_none {β : Type} {m : List Char → Option β}
    {c : Char} {cs : List Char} (h : m (c :: cs) = none) :
    searchWith m (c :: cs) = searchWith m cs := by
  simp [searchWith, h]

theorem head?_replicate_space {k : Nat} {c : Char}
    (h : (List.replicate k ' ' : List Char).head? = some c) : c = ' ' := by
  cases k with
  | zero => simp at h
  | succ k =>
    simp only [List.replicate, List.head?_cons, Option.some.injEq] at h
    exact h.symm

theorem matchCopyAt_eq_some {s d i t l : List Char}
    (h : matchCopyAt s = some (d, i, t, l)) :
    (d ≠ [] ∧ ∀ c ∈ d, pyDigit c = true) ∧
    (i ≠ [] ∧ ∀ c ∈ i, pySpace c = false) ∧
    (t ≠ [] ∧ ∀ c ∈ t, pySpace c = false) ∧
    (l ≠ [] ∧ ∀ c ∈ l, pySpace c = false) := by
  unfold matchCopyAt at h
  simp only [Option.bind_eq_some, Option.map_eq_some', Prod.exists] at h
  obtain ⟨s1, _, d', r1, hg1, w1, r2, hw1, s2, _, i', r3, hg2, w2, r4, hw2,
    s3, _, t', r5, hg3, w3, r6, hw3, s4, _, l', r7, hg4, heq⟩ := h
  obtain ⟨hd, hi, ht, hl⟩ : d' = d ∧ i' = i ∧ t' = t ∧ l' = l := by
    simpa using heq
  subst hd; subst hi; subst ht; subst hl
  have h1 := grab1_eq_some hg1
  have h2 := grab1_eq_some hg2
  have h3 := grab1_eq_some hg3
  have h4 := grab1_eq_some hg4
  refine ⟨⟨h1.1, h1.2.1⟩, ⟨h2.1, ?_⟩, ⟨h3.1, ?_⟩, ⟨h4.1, ?_⟩⟩
  · intro c hc
    simpa using h2.2.1 c hc
  · intro c hc
    simpa using h3.2.1 c hc
  · intro c hc
    simpa using h4.2.1 c hc

theorem matchCopyAt_space_cons (x : List Char) : matchCopyAt (' ' :: x) = none := by
  unfold matchCopyAt
  have hd : dropLit "copy:".toList (' ' :: x) = none := rfl
  rw [hd]
  rfl

/-- Re-matching the fixed-width copy-line layout: when every field is a
nonempty run of its character class and at least one padding space
separates the first three fields from the following label, the collapsed
pattern matcher recovers exactly the four fields. -/
theorem matchCopyAt_layout (d i t l : List Char) (k1 k2 k3 k4 : Nat)
    (hdne : d ≠ []) (hd : ∀ c ∈ d, pyDigit c = true)
    (hine : i ≠ []) (hi : ∀ c ∈ i, pySpace c = false)
    (htne : t ≠ []) (ht : ∀ c ∈ t, pySpace c = false)
    (hlne : l ≠ []) (hl : ∀ c ∈ l, pySpace c = false)
    (hk1 : k1 ≠ 0) (hk2 : k2 ≠ 0) (hk3 : k3 ≠ 0) :
    matchCopyAt ("copy:".toList ++ (d ++ (List.replicate k1 ' '
      ++ ("item ID:".toList ++ (i ++ (List.replicate k2 ' '
      ++ ("type:".toList ++ (t ++ (List.replicate k3 ' '
      ++ ("location:".toList ++ (l ++ List.replicate k4 ' ')))))))))))
      = some (d, i, t, l) := by
  have hrep : ∀ k : Nat, ∀ c ∈ (List.replicate k ' ' : List Char), pySpace c = true := by
    intro k c hc
    rw [List.eq_of_mem_replicate hc]
    decide
  have hid : "item ID:".toList = 'i' :: "tem ID:".toList := rfl
  have hty : "type:".toList = 't' :: "ype:".toList := rfl
  have hlo : "location:".toList = 'l' :: "ocation:".toList := rfl
  unfold matchCopyAt
  simp only [Option.bind_eq_some, Option.map_eq_some', Prod.exists]
  refine ⟨_, dropLit_append _ _,
    d, _, grab1_append hdne hd ?_,
    _, _, grab1_append (by simp [hk1]) (hrep k1) ?_,
    _, dropLit_append _ _,
    i, _, grab1_append hine (by intro c hc; simp [hi c hc]) ?_,
    _, _, grab1_append (by simp [hk2]) (hrep k2) ?_,
    _, dropLit_append _ _,
    t, _, grab1_append htne (by intro c hc; simp [ht c hc]) ?_,
    _, _, grab1_append (by simp [hk3]) (hrep k3) ?_,
    _, dropLit_append _ _,
    l, _, grab1_append hlne (by intro c hc; simp [hl c hc]) ?_,
    rfl⟩
  · intro c hc
    rw [head?_replicate_append hk1] at hc
    injection hc with hc
    subst hc
    decide
  · intro c hc
    rw [hid, List.cons_append, List.head?_cons] at hc
    injection hc with hc
    subst hc
    decide
  · intro c hc
    rw [head?_replicate_append hk2] at hc
    injection hc with hc
    subst hc
    decide
  · intro c hc
    rw [hty, List.cons_append, List.head?_cons] at hc
    injection hc with hc
    subst hc
    decide
  · intro c hc
    rw [head?_replicate_append hk3] at hc
    injection hc with hc
    subst hc
    decide
  · intro c hc
    rw [hlo, List.cons_append, List.head?_cons] at hc
    injection hc with hc
    subst hc
    decide
  · intro c hc
    have hc' := head?_replicate_space hc
    subst hc'
    decide

theorem copyLine_parse_inv {line : List Char} {cl : CopyLine}
    (h : CopyLine.parse line = some cl) :
    (cl.item_id ≠ [] ∧ ∀ c ∈ cl.item_id, pySpace c = false) ∧
    (cl.ctype ≠ [] ∧ ∀ c ∈ cl.ctype, pySpace c = false) ∧
    (cl.location ≠ [] ∧ ∀ c ∈ cl.location, pySpace c = false) := by
  unfold CopyLine.parse at h
  cases hs : searchWith matchCopyAt line with
  | none => rw [hs] at h; cases h
  | some r =>
    obtain ⟨d, i, t, l⟩ := r
    rw [hs] at h
    simp only [Option.some.injEq] at h
    obtain ⟨td, hm⟩ := searchWith_eq_some hs
    have hinv := matchCopyAt_eq_some hm
    subst h
    exact ⟨hinv.2.1, hinv.2.2.1, hinv.2.2.2⟩

theorem copyLine_reparse (cl : CopyLine)
    (hine : cl.item_id ≠ []) (hi : ∀ c ∈ cl.item_id, pySpace c = false)
    (htne : cl.ctype ≠ []) (ht : ∀ c ∈ cl.ctype, pySpace c = false)
    (hlne : cl.location ≠ []) (hl : ∀ c ∈ cl.location, pySpace c = false)
    (hd : (natRepr cl.copies).length ≤ 4)
    (hil : cl.item_id.length ≤ 17)
    (htl : cl.ctype.length ≤ 11) :
    CopyLine.parse cl.render = some cl := by
  obtain ⟨cp, ii, tt, ll⟩ := cl
  simp only at hine hi htne ht hlne hl hd hil htl
  have hsplit : "     copy:".toList = List.replicate 5 ' ' ++ "copy:".toList := by
    decide
  have hrender : CopyLine.render ⟨cp, ii, tt, ll⟩ =
      List.replicate 5 ' ' ++ ("copy:".toList ++ (natRepr cp
        ++ (List.replicate (5 - (natRepr cp).length) ' '
        ++ ("item ID:".toList ++ (ii ++ (List.replicate (18 - ii.length) ' '
        ++ ("type:".toList ++ (tt ++ (List.replicate (12 - tt.length) ' '
        ++ ("location:".toList ++ (ll ++ List.replicate (12 - ll.length) ' '))))))))))) := by
    simp only [CopyLine.render, padTo, hsplit]
    simp [List.append_assoc]
  have hmatch := matchCopyAt_layout (natRepr cp) ii tt ll
    (5 - (natRepr cp).length) (18 - ii.length) (12 - tt.length) (12 - ll.length)
    (natRepr_ne_nil cp) (natRepr_digits cp) hine hi htne ht hlne hl
    (by omega) (by omega) (by omega)
  have hsearch : searchWith matchCopyAt (CopyLine.render ⟨cp, ii, tt, ll⟩)
      = some (natRepr cp, ii, tt, ll) := by
    rw [hrender]
    rw [show (List.replicate 5 ' ' : List Char) = [' ', ' ', ' ', ' ', ' '] from rfl]
    simp only [List.cons_append, List.nil_append]
    rw [searchWith_cons_of_none (matchCopyAt_space_cons _),
      searchWith_cons_of_none (matchCopyAt_space_cons _),
      searchWith_cons_of_none (matchCopyAt_space_cons _),
      searchWith_cons_of_none (matchCopyAt_space_cons _),
      searchWith_cons_of_none (matchCopyAt_space_cons _)]
    exact searchWith_of_match hmatch
  unfold CopyLine.parse
  rw [hsearch]
  simp [digitsToNat_natRepr]

theorem padTo_length (w : Nat) (s : List Char) :
    (padTo w s).length = max w s.length := by
  simp only [padTo, List.length_append, List.length_replicate]
  omega

/-- Claim C10: CopyLine rendering never truncates a field — for every
successfully parsed CopyLine each field appears in full in the rendered
line, the rendered length is the sum of the label widths (32) plus each
field's column width taken as a minimum, and whenever `item_id` exceeds 18
characters, `type` or `location` exceeds 12, or `copies` exceeds 5 digits,
the line exceeds the nominal 79-character fixed-width layout rather than
cutting the field. -/
theorem copyLine_render_no_truncation (line : List Char) (cl : CopyLine)
    (_h : CopyLine.parse line = some cl)
    (hover : 18 < cl.item_id.length ∨ 12 < cl.ctype.length ∨
      12 < cl.location.length ∨ 5 < (natRepr cl.copies).length) :
    (∃ u v, cl.render = u ++ natRepr cl.copies ++ v) ∧
    (∃ u v, cl.render = u ++ cl.item_id ++ v) ∧
    (∃ u v, cl.render = u ++ cl.ctype ++ v) ∧
    (∃ u v, cl.render = u ++ cl.location ++ v) ∧
    cl.render.length = 32 + max 5 (natRepr cl.copies).length
      + max 18 cl.item_id.length + max 12 cl.ctype.length
      + max 12 cl.location.length ∧
    79 < cl.render.length := by
  have hlen : cl.render.length = 32 + max 5 (natRepr cl.copies).length
      + max 18 cl.item_id.length + max 12 cl.ctype.length
      + max 12 cl.location.length := by
    simp only [CopyLine.render, List.length_append, padTo_length]
    have h10 : ("     copy:".toList : List Char).length = 10 := by decide
    have h8 : ("item ID:".toList : List Char).length = 8 := by decide
    have h5 : ("type:".toList : List Char).length = 5 := by decide
    have h9 : ("location:".toList : List Char).length = 9 := by decide
    omega
  refine ⟨⟨"     copy:".toList,
      List.replicate (5 - (natRepr cl.copies).length) ' ' ++ "item ID:".toList
        ++ padTo 18 cl.item_id ++ "type:".toList ++ padTo 12 cl.ctype
        ++ "location:".toList ++ padTo 12 cl.location, ?_⟩,
    ⟨"     copy:".toList ++ padTo 5 (natRepr cl.copies) ++ "item ID:".toList,
      List.replicate (18 - cl.item_id.length) ' ' ++ "type:".toList
        ++ padTo 12 cl.ctype ++ "location:".toList ++ padTo 12 cl.location, ?_⟩,
    ⟨"     copy:".toList ++ padTo 5 (natRepr cl.copies) ++ "item ID:".toList
      ++ padTo 18 cl.item_id ++ "type:".toList,
      List.replicate (12 - cl.ctype.length) ' ' ++ "location:".toList
        ++ padTo 12 cl.location, ?_⟩,
    ⟨"     copy:".toList ++ padTo 5 (natRepr cl.copies) ++ "item ID:".toList
      ++ padTo 18 cl.item_id ++ "type:".toList ++ padTo 12 cl.ctype
      ++ "location:".toList,
      List.replicate (12 - cl.location.length) ' ', ?_⟩,
    hlen, by rw [hlen]; omega⟩
  · simp [CopyLine.render, padTo, List.append_assoc]
  · simp [CopyLine.render, padTo, List.append_assoc]
  · simp [CopyLine.render, padTo, List.append_assoc]
  · simp [CopyLine.render, padTo, List.append_assoc]

/-- Witness for claim C10 at a line whose item ID is 19 characters. -/
theorem copyLine_render_no_truncation_witness :
    79 < (CopyLine.render
      { copies := 1, item_id := "AAAAAAAAAAAAAAAAAAA".toList,
        ctype := "BOOK".toList, location := "STACKS".toList }).length :=
  (copyLine_render_no_truncation
    "copy:1 item ID:AAAAAAAAAAAAAAAAAAA type:BOOK location:STACKS".toList
    { copies := 1, item_id := "AAAAAAAAAAAAAAAAAAA".toList,
      ctype := "BOOK".toList, location := "STACKS".toList }
    (by decide) (Or.inl (by decide))).2.2.2.2.2

/-- Claim C6: TitleStatement input without a `/` keeps the whole trimmed
fragment as the title, has an empty author, and renders with the trailing
separator and space preserved. -/
theorem titleStatement_no_separator (text : List Char) (h : '/' ∉ text) :
    (TitleStatement.parse text).title = pyStrip text ∧
    (TitleStatement.parse text).author = [] ∧
    (TitleStatement.parse text).render
      = "  ".toList ++ pyStrip text ++ " / ".toList := by
  simp [TitleStatement.parse, h, TitleStatement.render]

/-- Witness: the spec's own example, input `Some Book` renders as
two-space indent, title, and a preserved trailing separator. -/
theorem titleStatement_no_separator_witness :
    (TitleStatement.parse "Some Book".toList).render
      = "  Some Book / ".toList := by
  rw [(titleStatement_no_separator "Some Book".toList (by decide)).2.2]
  decide

/-- Claim C7 counterexample: a successfully parsed pickup line whose
indent, left segment and right segment total exactly 78 characters gets
two padding spaces, not the one space the claim asserts for the
78-or-more case. -/
theorem pickupLine_padding_cex :
    PickupLine.parse
        "  Pickup library:\"ABCDEFGHIJKLMNOPQRSTUVWXYZABCDE\" Date of discharge:01/02/2003".toList
      = some { pickup_library := "ABCDEFGHIJKLMNOPQRSTUVWXYZABCDE".toList,
               discharge_date := "01/02/2003".toList } ∧
    2 + ({ pickup_library := "ABCDEFGHIJKLMNOPQRSTUVWXYZABCDE".toList,
           discharge_date := "01/02/2003".toList } : PickupLine).left.length
      + ({ pickup_library := "ABCDEFGHIJKLMNOPQRSTUVWXYZABCDE".toList,
           discharge_date := "01/02/2003".toList } : PickupLine).right.length = 78 ∧
    ({ pickup_library := "ABCDEFGHIJKLMNOPQRSTUVWXYZABCDE".toList,
       discharge_date := "01/02/2003".toList } : PickupLine).render
      ≠ "  ".toList
        ++ ({ pickup_library := "ABCDEFGHIJKLMNOPQRSTUVWXYZABCDE".toList,
              discharge_date := "01/02/2003".toList } : PickupLine).left
        ++ [' ']
        ++ ({ pickup_library := "ABCDEFGHIJKLMNOPQRSTUVWXYZABCDE".toList,
              discharge_date := "01/02/2003".toList } : PickupLine).right := by
  refine ⟨by decide, by decide, by decide⟩

/-- Claim C7 (amended): for every successfully parsed PickupLine the
rendered line is the 2-space indent, the left segment, padding, and the
right segment; the padding makes the total exactly 80 when indent + left +
right is at most 79 characters, and is exactly one space (never zero,
nothing truncated) when indent + left + right is 79 characters or more
(at exactly 78 the code still pads to the full 80 with two spaces). -/
theorem pickupLine_render_padding (line : List Char) (pl : PickupLine)
    (_h : PickupLine.parse line = some pl) :
    (2 + pl.left.length + pl.right.length ≤ 79 → pl.render.length = 80) ∧
    (79 ≤ 2 + pl.left.length + pl.right.length →
      pl.render = "  ".toList ++ pl.left ++ [' '] ++ pl.right) := by
  constructor
  · intro hle
    simp only [PickupLine.render, List.length_append, List.length_replicate]
    have h2 : ("  ".toList : List Char).length = 2 := by decide
    omega
  · intro hge
    have hmax : max 1 (80 - 2 - pl.left.length - pl.right.length) = 1 := by omega
    simp [PickupLine.render, hmax, List.append_assoc]

/-- Witness for claim C7 on a short pickup line: total length is 80. -/
theorem pickupLine_render_padding_witness :
    ({ pickup_library := "MAIN".toList,
       discharge_date := "01/02/2003".toList } : PickupLine).render.length = 80 :=
  (pickupLine_render_padding
    "  Pickup library:\"MAIN\" Date of discharge:01/02/2003".toList
    { pickup_library := "MAIN".toList, discharge_date := "01/02/2003".toList }
    (by decide)).1 (by decide)

theorem pySplitChar_ne_nil (sep : Char) (s : List Char) :
    pySplitChar sep s ≠ [] := by
  cases s with
  | nil => simp [pySplitChar]
  | cons c cs =>
    simp only [pySplitChar]
    cases h : pySplitChar sep cs with
    | nil => simp
    | cons h2 t => by_cases hc : c = sep <;> simp [hc]

theorem pySplitChar_of_not_mem {sep : Char} :
    ∀ {s : List Char}, sep ∉ s → pySplitChar sep s = [s] := by
  intro s
  induction s with
  | nil => intro _; rfl
  | cons c cs ih =>
    intro h
    have hc : ¬ c = sep := fun e => h (e ▸ List.mem_cons_self c cs)
    have hcs : sep ∉ cs := fun e => h (List.mem_cons_of_mem _ e)
    simp [pySplitChar, ih hcs, hc]

theorem pySplitMax_eq_of_count (sep : Char) :
    ∀ (s : List Char) (m : Nat), s.count sep ≤ m →
      pySplitMax sep m s = pySplitChar sep s := by
  intro s
  induction s with
  | nil => intro m _; cases m <;> rfl
  | cons c cs ih =>
    intro m hc
    cases m with
    | zero =>
      have hmem : sep ∉ c :: cs := by
        rw [← List.count_eq_zero]
        omega
      rw [pySplitChar_of_not_mem hmem]
      rfl
    | succ m' =>
      by_cases hcs : c = sep
      · subst hcs
        have hcount : cs.count c ≤ m' := by
          have := List.count_cons_self c cs
          omega
        simp only [pySplitMax, if_pos rfl, pySplitChar]
        rw [ih m' hcount]
        cases hsp : pySplitChar c cs with
        | nil => exact absurd hsp (pySplitChar_ne_nil c cs)
        | cons h2 t => rfl
      · have hne : sep ≠ c := fun e => hcs e.symm
        have hcount : cs.count sep ≤ m' + 1 := by
          rw [List.count_cons_of_ne hne] at hc
          exact hc
        simp only [pySplitMax, if_neg hcs, pySplitChar]
        rw [ih (m' + 1) hcount]

/-- Claim C5 counterexample: on the input `a,b,c,d` (three commas) the
code's full split gives `birth_year = ""` (third field `c` with its final
character removed), while the spec's at-most-3-parts split would give
`birth_year = "c,"` (from the remainder `c,d`); the two disagree, so the
claimed description does not hold for every input string. -/
theorem authorLine_spec_cex :
    AuthorLine.parse "a,b,c,d".toList ≠ specAuthorParse "a,b,c,d".toList := by
  decide

/-- Claim C5 (amended): AuthorLine splits its input on every `","`
(unbounded), trims each part, and uses only the first three parts: part 0
becomes `last_name`, part 1 (when present) `first_name` else empty, part 2
(when present) `birth_year` with its final character removed
unconditionally; parts beyond the third are ignored.  Restricted to
inputs with at most two commas this coincides with the claimed
split-into-at-most-3-parts description, proved here. -/
theorem authorLine_parse_eq_spec (text : List Char)
    (h : text.count ',' ≤ 2) :
    AuthorLine.parse text = specAuthorParse text := by
  unfold AuthorLine.parse specAuthorParse
  rw [pySplitMax_eq_of_count ',' text 2 h]

/-- Witness for the amended claim C5 at a two-comma author line. -/
theorem authorLine_parse_eq_spec_witness :
    ("Doe, Jane, 1954-".toList.count ',' ≤ 2) ∧
    AuthorLine.parse "Doe, Jane, 1954-".toList
      = specAuthorParse "Doe, Jane, 1954-".toList :=
  ⟨by decide, authorLine_parse_eq_spec "Doe, Jane, 1954-".toList (by decide)⟩

/-- Claim C4 counterexample: a block of five nonempty lines whose fourth
line is not a valid copy line fails SirsiEntry construction even though it
does not have fewer than 5 nonempty lines — construction failure is not
equivalent to the fewer-than-5-lines condition. -/
theorem sirsiEntry_parse_cex :
    SirsiEntry.parse "a\nb\nc\nd\ne".toList = none ∧
    (splitLines (pyStrip "a\nb\nc\nd\ne".toList)).length = 5 ∧
    ∀ l ∈ splitLines (pyStrip "a\nb\nc\nd\ne".toList), l ≠ [] := by
  refine ⟨by decide, by decide, by decide⟩

/-- Claim C4 (amended): SirsiEntry construction fails exactly when the
trimmed block splits into fewer than 5 lines (empty lines included in the
count), or its fourth line fails copy-line parsing, or its fifth line
fails pickup-line parsing; in particular a block with only 3 lines never
produces a SirsiEntry (and, with the parser theorem for claim C3, never
appears in a parsed report's entry list). -/
theorem sirsiEntry_parse_eq_none (raw_block : List Char) :
    (SirsiEntry.parse raw_block = none ↔
      (splitLines (pyStrip raw_block)).length < 5 ∨
      CopyLine.parse ((splitLines (pyStrip raw_block)).getD 3 []) = none ∨
      PickupLine.parse ((splitLines (pyStrip raw_block)).getD 4 []) = none) ∧
    ((splitLines (pyStrip raw_block)).length = 3 →
      SirsiEntry.parse raw_block = none) := by
  have hiff : SirsiEntry.parse raw_block = none ↔
      (splitLines (pyStrip raw_block)).length < 5 ∨
      CopyLine.parse ((splitLines (pyStrip raw_block)).getD 3 []) = none ∨
      PickupLine.parse ((splitLines (pyStrip raw_block)).getD 4 []) = none := by
    unfold SirsiEntry.parse
    simp only [List.getD_eq_getElem?_getD]
    by_cases h5 : (splitLines (pyStrip raw_block)).length < 5
    · simp [h5]
    · cases hc : CopyLine.parse ((splitLines (pyStrip raw_block))[3]?.getD []) with
      | none => simp [h5, hc]
      | some cl =>
        cases hp : PickupLine.parse ((splitLines (pyStrip raw_block))[4]?.getD []) with
        | none => simp [h5, hc, hp]
        | some pl => simp [h5, hc, hp]
  exact ⟨hiff, fun h3 => hiff.mpr (Or.inl (by omega))⟩

/-- Witness for the amended claim C4: a 3-line block yields no entry. -/
theorem sirsiEntry_parse_eq_none_witness :
    SirsiEntry.parse "a\nb\nc".toList = none :=
  (sirsiEntry_parse_eq_none "a\nb\nc".toList).2 (by decide)

theorem parseBlocks_eq_filterMap (bs : List (List Char)) :
    parseBlocks bs = bs.filterMap SirsiEntry.parse := by
  induction bs with
  | nil => rfl
  | cons b bs ih =>
    cases h : SirsiEntry.parse b <;>
      simp [parseBlocks, h, ih, List.filterMap_cons]

/-- Claim C3: the parser's per-block error handling never aborts — the
block loop (which skips each block whose entry construction fails and
continues) returns exactly the successfully parsed entries of the
stripped-nonempty blocks, in their original block order, and every entry
of the report arises from some surviving block. -/
theorem sirsiParser_parse_entries (text : List Char) :
    (SirsiParser.parse text).entries
      = ((splitOn2NL text).filter
          (fun b => pyStrip b ≠ [])).filterMap SirsiEntry.parse ∧
    ∀ e ∈ (SirsiParser.parse text).entries,
      ∃ b ∈ (splitOn2NL text).filter (fun b => pyStrip b ≠ []),
        SirsiEntry.parse b = some e := by
  have he : (SirsiParser.parse text).entries
      = ((splitOn2NL text).filter
          (fun b => pyStrip b ≠ [])).filterMap SirsiEntry.parse := by
    unfold SirsiParser.parse
    exact parseBlocks_eq_filterMap _
  refine ⟨he, fun e hme => ?_⟩
  rw [he] at hme
  exact List.mem_filterMap.mp hme

theorem char_toNat_inj {c d : Char} (h : c.toNat = d.toNat) : c = d :=
  Char.ext (UInt32.toNat.inj h)

theorem listCharLt_cons {a b : Char} {as bs : List Char} :
    listCharLt (a :: as) (b :: bs) = true ↔
      a.toNat < b.toNat ∨ (a = b ∧ listCharLt as bs = true) := by
  simp [listCharLt]

theorem listCharLt_trichotomy : ∀ (a b : List Char),
    listCharLt a b = true ∨ a = b ∨ listCharLt b a = true := by
  intro a
  induction a with
  | nil =>
    intro b
    cases b with
    | nil => right; left; rfl
    | cons d ds => left; rfl
  | cons c cs ih =>
    intro b
    cases b with
    | nil => right; right; rfl
    | cons d ds =>
      rcases Nat.lt_trichotomy c.toNat d.toNat with h | h | h
      · left
        rw [listCharLt_cons]
        exact Or.inl h
      · have hcd : c = d := char_toNat_inj h
        subst hcd
        rcases ih ds with h2 | h2 | h2
        · left
          rw [listCharLt_cons]
          exact Or.inr ⟨rfl, h2⟩
        · right; left
          rw [h2]
        · right; right
          rw [listCharLt_cons]
          exact Or.inr ⟨rfl, h2⟩
      · right; right
        rw [listCharLt_cons]
        exact Or.inl h

theorem listCharLt_trans : ∀ (a b c : List Char),
    listCharLt a b = true → listCharLt b c = true → listCharLt a c = true := by
  intro a
  induction a with
  | nil =>
    intro b c hab hbc
    cases b with
    | nil => exact absurd hab (by simp [listCharLt])
    | cons y ys =>
      cases c with
      | nil => exact absurd hbc (by simp [listCharLt])
      | cons z zs => rfl
  | cons x xs ih =>
    intro b c hab hbc
    cases b with
    | nil => exact absurd hab (by simp [listCharLt])
    | cons y ys =>
      cases c with
      | nil => exact absurd hbc (by simp [listCharLt])
      | cons z zs =>
        rw [listCharLt_cons] at hab hbc ⊢
        rcases hab with h1 | ⟨hxy, h1⟩
        · rcases hbc with h2 | ⟨hyz, h2⟩
          · exact Or.inl (Nat.lt_trans h1 h2)
          · subst hyz
            exact Or.inl h1
        · subst hxy
          rcases hbc with h2 | ⟨hyz, h2⟩
          · exact Or.inl h2
          · subst hyz
            exact Or.inr ⟨rfl, ih ys zs h1 h2⟩

theorem keyLe_refl (k : Nat × List Char × List Char) : keyLe k k :=
  Or.inr ⟨rfl, Or.inr ⟨rfl, Or.inr rfl⟩⟩

theorem keyLe_total (k1 k2 : Nat × List Char × List Char) :
    keyLe k1 k2 ∨ keyLe k2 k1 := by
  unfold keyLe
  rcases Nat.lt_trichotomy k1.1 k2.1 with h | h | h
  · exact Or.inl (Or.inl h)
  · rcases listCharLt_trichotomy k1.2.1 k2.2.1 with h2 | h2 | h2
    · exact Or.inl (Or.inr ⟨h, Or.inl h2⟩)
    · rcases listCharLt_trichotomy k1.2.2 k2.2.2 with h3 | h3 | h3
      · exact Or.inl (Or.inr ⟨h, Or.inr ⟨h2, Or.inl h3⟩⟩)
      · exact Or.inl (Or.inr ⟨h, Or.inr ⟨h2, Or.inr h3⟩⟩)
      · exact Or.inr (Or.inr ⟨h.symm, Or.inr ⟨h2.symm, Or.inl h3⟩⟩)
    · exact Or.inr (Or.inr ⟨h.symm, Or.inl h2⟩)
  · exact Or.inr (Or.inl h)

theorem keyLe_trans {k1 k2 k3 : Nat × List Char × List Char}
    (h12 : keyLe k1 k2) (h23 : keyLe k2 k3) : keyLe k1 k3 := by
  unfold keyLe at h12 h23 ⊢
  rcases h12 with h1 | ⟨e1, h1⟩
  · rcases h23 with h2 | ⟨e2, h2⟩
    · exact Or.inl (Nat.lt_trans h1 h2)
    · exact Or.inl (e2 ▸ h1)
  · rcases h23 with h2 | ⟨e2, h2⟩
    · exact Or.inl (e1 ▸ h2)
    · refine Or.inr ⟨e1.trans e2, ?_⟩
      rcases h1 with h1 | ⟨f1, h1⟩
      · rcases h2 with h2 | ⟨f2, h2⟩
        · exact Or.inl (listCharLt_trans _ _ _ h1 h2)
        · exact Or.inl (f2 ▸ h1)
      · rcases h2 with h2 | ⟨f2, h2⟩
        · exact Or.inl (f1 ▸ h2)
        · refine Or.inr ⟨f1.trans f2, ?_⟩
          rcases h1 with h1 | h1
          · rcases h2 with h2 | h2
            · exact Or.inl (listCharLt_trans _ _ _ h1 h2)
            · exact Or.inl (h2 ▸ h1)
          · rcases h2 with h2 | h2
            · exact Or.inl (h1 ▸ h2)
            · exact Or.inr (h1.trans h2)

theorem mem_insertS {α κ : Type} (key : α → κ) (kle : κ → κ → Prop)
    [DecidableRel kle] (x : α) : ∀ (s : List α) (z : α),
    z ∈ insertS key kle x s ↔ z = x ∨ z ∈ s := by
  intro s
  induction s with
  | nil => intro z; simp [insertS]
  | cons y ys ih =>
    intro z
    by_cases h : kle (key y) (key x)
    · simp only [insertS, if_pos h, List.mem_cons, ih]
      tauto
    · simp only [insertS, if_neg h, List.mem_cons]

theorem pairwise_insertS {α κ : Type} (key : α → κ) (kle : κ → κ → Prop)
    [DecidableRel kle]
    (htot : ∀ a b, kle a b ∨ kle b a)
    (htrans : ∀ {a b c}, kle a b → kle b c → kle a c)
    (x : α) : ∀ (s : List α),
    s.Pairwise (fun a b => kle (key a) (key b)) →
    (insertS key kle x s).Pairwise (fun a b => kle (key a) (key b)) := by
  intro s
  induction s with
  | nil => intro _; simp [insertS]
  | cons y ys ih =>
    intro hs'
    have hs := List.pairwise_cons.mp hs'
    by_cases h : kle (key y) (key x)
    · rw [insertS, if_pos h, List.pairwise_cons]
      refine ⟨?_, ih hs.2⟩
      intro z hz
      rcases (mem_insertS key kle x ys z).mp hz with rfl | hz'
      · exact h
      · exact hs.1 z hz'
    · rw [insertS, if_neg h, List.pairwise_cons]
      have hxy : kle (key x) (key y) := (htot (key y) (key x)).resolve_left h
      refine ⟨?_, hs'⟩
      intro z hz
      rcases List.mem_cons.mp hz with rfl | hz'
      · exact hxy
      · exact htrans hxy (hs.1 z hz')

theorem pairwise_sortK_aux {α κ : Type} (key : α → κ) (kle : κ → κ → Prop)
    [DecidableRel kle]
    (htot : ∀ a b, kle a b ∨ kle b a)
    (htrans : ∀ {a b c}, kle a b → kle b c → kle a c) :
    ∀ (l s : List α), s.Pairwise (fun a b => kle (key a) (key b)) →
    (l.foldl (fun s x => insertS key kle x s) s).Pairwise
      (fun a b => kle (key a) (key b)) := by
  intro l
  induction l with
  | nil => intro s hs; exact hs
  | cons x xs ih =>
    intro s hs
    exact ih _ (pairwise_insertS key kle htot htrans x s hs)

theorem pairwise_sortK {α κ : Type} (key : α → κ) (kle : κ → κ → Prop)
    [DecidableRel kle]
    (htot : ∀ a b, kle a b ∨ kle b a)
    (htrans : ∀ {a b c}, kle a b → kle b c → kle a c) (l : List α) :
    (sortK key kle l).Pairwise (fun a b => kle (key a) (key b)) :=
  pairwise_sortK_aux key kle htot htrans l [] List.Pairwise.nil

theorem filter_insertS {α κ : Type} [DecidableEq κ] (key : α → κ)
    (kle : κ → κ → Prop) [DecidableRel kle]
    (htot : ∀ a b, kle a b ∨ kle b a)
    (x : α) (k : κ) : ∀ (s : List α),
    s.Pairwise (fun a b => kle (key a) (key b)) →
    (insertS key kle x s).filter (fun e => decide (key e = k))
      = s.filter (fun e => decide (key e = k))
        ++ (if key x = k then [x] else []) := by
  intro s
  induction s with
  | nil =>
    intro _
    by_cases hk : key x = k <;> simp [insertS, List.filter_cons, hk]
  | cons y ys ih =>
    intro hs'
    have hs := List.pairwise_cons.mp hs'
    by_cases h : kle (key y) (key x)
    · rw [insertS, if_pos h, List.filter_cons, List.filter_cons]
      by_cases hy : key y = k <;> simp [hy, ih hs.2, List.append_assoc]
    · rw [insertS, if_neg h]
      by_cases hk : key x = k
      · have hrefl : kle k k := (htot k k).elim id id
        have hnil : ys.filter (fun e => decide (key e = k)) = [] := by
          rw [List.filter_eq_nil_iff]
          intro z hz
          simp only [decide_eq_true_eq]
          intro hzk
          have hyz := hs.1 z hz
          rw [hzk, ← hk] at hyz
          exact h hyz
        have hynk : ¬ key y = k := by
          intro hyk
          apply h
          rw [hyk, hk]
          exact hrefl
        rw [List.filter_cons, List.filter_cons]
        simp [hk, hynk, hnil]
      · rw [List.filter_cons]
        simp [hk]

theorem filter_sortK_aux {α κ : Type} [DecidableEq κ] (key : α → κ)
    (kle : κ → κ → Prop) [DecidableRel kle]
    (htot : ∀ a b, kle a b ∨ kle b a)
    (htrans : ∀ {a b c}, kle a b → kle b c → kle a c) (k : κ) :
    ∀ (l s : List α), s.Pairwise (fun a b => kle (key a) (key b)) →
    (l.foldl (fun s x => insertS key kle x s) s).filter
        (fun e => decide (key e = k))
      = s.filter (fun e => decide (key e = k))
        ++ l.filter (fun e => decide (key e = k)) := by
  intro l
  induction l with
  | nil => intro s hs; simp
  | cons x xs ih =>
    intro s hs
    rw [List.foldl_cons, ih _ (pairwise_insertS key kle htot htrans x s hs),
      filter_insertS key kle htot x k s hs, List.filter_cons]
    by_cases hk : key x = k <;> simp [hk, List.append_assoc]

theorem filter_sortK {α κ : Type} [DecidableEq κ] (key : α → κ)
    (kle : κ → κ → Prop) [DecidableRel kle]
    (htot : ∀ a b, kle a b ∨ kle b a)
    (htrans : ∀ {a b c}, kle a b → kle b c → kle a c) (l : List α) (k : κ) :
    (sortK key kle l).filter (fun e => decide (key e = k))
      = l.filter (fun e => decide (key e = k)) := by
  have h := filter_sortK_aux key kle htot htrans k l [] List.Pairwise.nil
  simpa [sortK] using h

theorem indexOf_lt_length_of_mem {loc : List Char} :
    ∀ {so : List (List Char)}, loc ∈ so → so.indexOf loc < so.length := by
  intro so
  induction so with
  | nil => intro h; cases h
  | cons y ys ih =>
    intro h
    rw [List.indexOf_cons]
    by_cases hy : (y == loc) = true
    · simp [hy]
    · have hm : loc ∈ ys := by
        rcases List.mem_cons.mp h with rfl | h2
        · simp at hy
        · exact h2
      have := ih hm
      simp only [hy, cond_false, List.length_cons]
      omega

theorem locIndex_lt_length {sort_order : List (List Char)} {loc : List Char} :
    locIndex sort_order loc < sort_order.length ↔ loc ∈ sort_order := by
  unfold locIndex
  by_cases h : loc ∈ sort_order
  · simp [h]
    exact indexOf_lt_length_of_mem h
  · simp [h]

theorem keyLe_imp_claim {sort_order : List (List Char)} {e1 e2 : SirsiEntry}
    (h : keyLe (entryKey sort_order e1) (entryKey sort_order e2)) :
    locIndex sort_order e1.copy_line.main_location
        ≤ locIndex sort_order e2.copy_line.main_location ∧
      (locIndex sort_order e1.copy_line.main_location
          = locIndex sort_order e2.copy_line.main_location → namePairLe e1 e2) := by
  unfold keyLe entryKey at h
  simp only at h
  constructor
  · rcases h with h | ⟨he, _⟩
    · omega
    · omega
  · intro _
    rcases h with h | ⟨he, hrest⟩
    · omega
    · exact hrest

theorem keyLe_imp_listed {sort_order : List (List Char)} {e1 e2 : SirsiEntry}
    (h : keyLe (entryKey sort_order e1) (entryKey sort_order e2))
    (h2 : e2.copy_line.main_location ∈ sort_order) :
    e1.copy_line.main_location ∈ sort_order := by
  have hrank := (keyLe_imp_claim h).1
  have hlt := locIndex_lt_length.mpr h2
  exact locIndex_lt_length.mp (by omega)

/-- Claim C2: after `sort_by_location_and_author(order)`, adjacent entries
have nondecreasing location rank with the (last, first) name pair
nondecreasing on equal ranks; every entry whose main location is absent
from the priority list comes after every entry whose location is listed;
and the sort is stable — entries with fully equal sort keys keep their
original relative order. -/
theorem sortByLocationAndAuthor_spec (r : SirsiReport)
    (sort_order : List (List Char)) :
    List.Chain' (fun e1 e2 =>
        locIndex sort_order e1.copy_line.main_location
            ≤ locIndex sort_order e2.copy_line.main_location ∧
          (locIndex sort_order e1.copy_line.main_location
              = locIndex sort_order e2.copy_line.main_location →
            namePairLe e1 e2))
      (r.sort_by_location_and_author sort_order).entries ∧
    List.Pairwise (fun e1 e2 =>
        e2.copy_line.main_location ∈ sort_order →
          e1.copy_line.main_location ∈ sort_order)
      (r.sort_by_location_and_author sort_order).entries ∧
    (∀ k : Nat × List Char × List Char,
      ((r.sort_by_location_and_author sort_order).entries).filter
          (fun e => decide (entryKey sort_order e = k))
        = r.entries.filter (fun e => decide (entryKey sort_order e = k))) := by
  have hP : ((r.sort_by_location_and_author sort_order).entries).Pairwise
      (fun a b => keyLe (entryKey sort_order a) (entryKey sort_order b)) :=
    pairwise_sortK (entryKey sort_order) keyLe keyLe_total
      (fun hab hbc => keyLe_trans hab hbc) r.entries
  refine ⟨(hP.imp fun h => keyLe_imp_claim h).chain', ?_, ?_⟩
  · exact hP.imp fun h h2 => keyLe_imp_listed h h2
  · intro k
    exact filter_sortK (entryKey sort_order) keyLe keyLe_total
      (fun hab hbc => keyLe_trans hab hbc) r.entries k

/-- Claim C9: with an empty priority list every entry gets the same
location rank (0, which is also `len([])`), so the sorted output is
ordered by the (last, first) name pair alone, and entries with equal name
pairs keep their original relative order (stability breaks the ties). -/
theorem sortByLocationAndAuthor_empty_order (r : SirsiReport) :
    (∀ loc : List Char, locIndex [] loc = ([] : List (List Char)).length) ∧
    List.Chain' namePairLe (r.sort_by_location_and_author []).entries ∧
    (∀ nk : List Char × List Char,
      ((r.sort_by_location_and_author []).entries).filter
          (fun e =>
            decide ((e.author_line.last_name, e.author_line.first_name) = nk))
        = r.entries.filter
          (fun e =>
            decide ((e.author_line.last_name, e.author_line.first_name) = nk))) := by
  have hval : ∀ e : SirsiEntry, entryKey [] e
      = (0, e.author_line.last_name, e.author_line.first_name) := by
    intro e
    simp [entryKey, locIndex]
  have hP : ((r.sort_by_location_and_author []).entries).Pairwise
      (fun a b => keyLe (entryKey [] a) (entryKey [] b)) :=
    pairwise_sortK (entryKey []) keyLe keyLe_total
      (fun hab hbc => keyLe_trans hab hbc) r.entries
  refine ⟨fun loc => by simp [locIndex], ?_, ?_⟩
  · refine (hP.imp fun {a b} h => ?_).chain'
    rw [hval a, hval b] at h
    unfold keyLe at h
    rcases h with h | ⟨_, hr⟩
    · exact absurd h (by simp)
    · exact hr
  · intro nk
    have hpred : ∀ e : SirsiEntry,
        (decide (entryKey [] e = (0, nk.1, nk.2)))
          = (decide ((e.author_line.last_name, e.author_line.first_name) = nk)) := by
      intro e
      apply decide_eq_decide.mpr
      rw [hval e]
      cases nk with
      | mk n1 n2 => simp [Prod.ext_iff]
    calc ((r.sort_by_location_and_author []).entries).filter
          (fun e =>
            decide ((e.author_line.last_name, e.author_line.first_name) = nk))
        = ((r.sort_by_location_and_author []).entries).filter
            (fun e => decide (entryKey [] e = (0, nk.1, nk.2))) :=
          (List.filter_congr fun e _ => hpred e).symm
      _ = r.entries.filter (fun e => decide (entryKey [] e = (0, nk.1, nk.2))) :=
          filter_sortK (entryKey []) keyLe keyLe_total
            (fun hab hbc => keyLe_trans hab hbc) r.entries (0, nk.1, nk.2)
      _ = r.entries.filter
            (fun e =>
              decide ((e.author_line.last_name, e.author_line.first_name) = nk)) :=
          List.filter_congr fun e _ => hpred e

theorem takeWhile_head_false {p : Char → Bool} {b : List Char}
    (hb : ∀ c, b.head? = some c → p c = false) :
    b.takeWhile p = [] ∧ b.dropWhile p = b := by
  have h := takeWhile_append_of (p := p) (a := []) (by simp) hb
  simpa using h

/-- Matching the header pattern at the start of a text that begins with a
minimal header block: the match consumes exactly the block (its trailing
`\s*` takes the final newline and stops at the following non-space
character). -/
theorem matchHeaderAt_layout (p l rest : List Char)
    (hp : p ≠ []) (hpq : ∀ c ∈ p, (c != '"') = true)
    (hl : l ≠ []) (hlq : ∀ c ∈ l, (c != '"') = true)
    (hrest : ∀ c, rest.head? = some c → pySpace c = false) :
    matchHeaderAt (headerTextFrom p l rest)
      = some (headerMatchText p l, rest) := by
  unfold headerTextFrom headerMatchText
  have t0 : ∀ x : List Char,
      ("HOLD PICKUP LIST".toList ++ x).takeWhile pySpace = [] := fun _ => rfl
  have d0 : ∀ x : List Char,
      ("HOLD PICKUP LIST".toList ++ x).dropWhile pySpace
        = "HOLD PICKUP LIST".toList ++ x := fun _ => rfl
  have hd0 : ∀ x : List Char,
      dropLit "HOLD PICKUP LIST".toList ("HOLD PICKUP LIST".toList ++ x)
        = some x := fun x => dropLit_append _ x
  have t1 : ∀ x : List Char,
      ('\n' :: ("Produced".toList ++ x)).takeWhile pySpace = ['\n'] :=
    fun _ => rfl
  have d1 : ∀ x : List Char,
      ('\n' :: ("Produced".toList ++ x)).dropWhile pySpace
        = "Produced".toList ++ x := fun _ => rfl
  have hd1 : ∀ x : List Char,
      dropLit "Produced".toList ("Produced".toList ++ x) = some x :=
    fun x => dropLit_append _ x
  have gsp : ∀ x : List Char,
      grab1 pySpace (' ' :: ('"' :: x)) = some ([' '], '"' :: x) :=
    fun _ => rfl
  have hdq : ∀ x : List Char, dropLit "\"".toList ('"' :: x) = some x :=
    fun _ => rfl
  have t2 : ∀ x : List Char,
      ('\n' :: ("Library:".toList ++ x)).takeWhile pySpace = ['\n'] :=
    fun _ => rfl
  have d2 : ∀ x : List Char,
      ('\n' :: ("Library:".toList ++ x)).dropWhile pySpace
        = "Library:".toList ++ x := fun _ => rfl
  have hd2 : ∀ x : List Char,
      dropLit "Library:".toList ("Library:".toList ++ x) = some x :=
    fun x => dropLit_append _ x
  have hgp : grab1 (fun c => c != '"') (p ++ ('"' :: ('\n' :: ("Library:".toList
      ++ (' ' :: ('"' :: (l ++ ('"' :: ('\n' :: rest)))))))))
      = some (p, '"' :: ('\n' :: ("Library:".toList
        ++ (' ' :: ('"' :: (l ++ ('"' :: ('\n' :: rest)))))))) := by
    refine grab1_append hp hpq ?_
    intro c hc
    have hc' : (some '"' : Option Char) = some c := hc
    injection hc' with hc''
    subst hc''
    decide
  have hgl : grab1 (fun c => c != '"') (l ++ ('"' :: ('\n' :: rest)))
      = some (l, '"' :: ('\n' :: rest)) := by
    refine grab1_append hl hlq ?_
    intro c hc
    have hc' : (some '"' : Option Char) = some c := hc
    injection hc' with hc''
    subst hc''
    decide
  have hsp : pySpace '\n' = true := rfl
  have htw : (('\n' :: rest) : List Char).takeWhile pySpace = ['\n'] := by
    rw [List.takeWhile_cons]
    simp [hsp, (takeWhile_head_false hrest).1]
  have hdw : (('\n' :: rest) : List Char).dropWhile pySpace = rest := by
    rw [List.dropWhile_cons]
    simp [hsp, (takeWhile_head_false hrest).2]
  simp only [matchHeaderAt, t0, d0, hd0, Option.some_bind, t1, d1, hd1, gsp,
    hdq, t2, d2, hd2, hgp, hgl, htw, hdw, List.mem_cons, List.not_mem_nil,
    or_false, if_true, List.mem_singleton]
  simp only [List.append_assoc, List.cons_append, List.singleton_append,
    List.nil_append, htw, hdw]
  simp [htw, hdw]

/-- Claim C8: when the header pattern occurs twice consecutively (two
well-formed header blocks back to back), the captured header is exactly
the first block; and when the pattern does not occur anywhere, the
captured header is the empty string. -/
theorem sirsiParser_header_spec :
    (∀ p l tail : List Char, p ≠ [] → (∀ c ∈ p, (c != '"') = true) →
      l ≠ [] → (∀ c ∈ l, (c != '"') = true) →
      (SirsiParser.parse (headerBlock p l ++ (headerBlock p l ++ tail))).header
        = headerBlock p l) ∧
    (∀ text : List Char, searchWith matchHeaderAt text = none →
      (SirsiParser.parse text).header = []) := by
  constructor
  · intro p l tail hp hpq hl hlq
    have hsplit1 : "HOLD PICKUP LIST\nProduced \"".toList
        = "HOLD PICKUP LIST".toList ++ ('\n' :: ("Produced".toList
          ++ (' ' :: ['"']))) := by decide
    have hsplit2 : "\"\nLibrary: \"".toList
        = '"' :: ('\n' :: ("Library:".toList ++ (' ' :: ['"']))) := by decide
    have hsplit3 : "\"\n".toList = '"' :: ['\n'] := by decide
    have hrest : ∀ c, (headerBlock p l ++ tail).head? = some c →
        pySpace c = false := by
      intro c hc
      have hc' : (some 'H' : Option Char) = some c := hc
      injection hc' with hc''
      subst hc''
      decide
    have hshape : headerBlock p l ++ (headerBlock p l ++ tail)
        = headerTextFrom p l (headerBlock p l ++ tail) := by
      simp only [headerBlock, headerTextFrom, hsplit1, hsplit2, hsplit3,
        List.append_assoc, List.cons_append, List.nil_append]
    have hm := matchHeaderAt_layout p l (headerBlock p l ++ tail)
      hp hpq hl hlq hrest
    have hsearch : searchWith matchHeaderAt
        (headerBlock p l ++ (headerBlock p l ++ tail))
        = some (headerMatchText p l, headerBlock p l ++ tail) := by
      rw [hshape]
      exact searchWith_of_match hm
    simp only [SirsiParser.parse, hsearch]
    simp only [headerBlock, headerMatchText, hsplit1, hsplit2, hsplit3,
      List.append_assoc, List.cons_append, List.nil_append]
  · intro text h
    simp [SirsiParser.parse, h]

/-- Witness for claim C8: a concrete doubled header block yields exactly
the first block as the captured header, and a headerless text yields the
empty header. -/
theorem sirsiParser_header_spec_witness :
    (SirsiParser.parse (headerBlock "Mon Jan 01 2024".toList "MAIN".toList
        ++ (headerBlock "Mon Jan 01 2024".toList "MAIN".toList ++ []))).header
      = headerBlock "Mon Jan 01 2024".toList "MAIN".toList ∧
    (SirsiParser.parse "no match here".toList).header = [] :=
  ⟨sirsiParser_header_spec.1 "Mon Jan 01 2024".toList "MAIN".toList []
      (by decide) (by decide) (by decide) (by decide),
   sirsiParser_header_spec.2 "no match here".toList (by decide)⟩

/-- Claim C1 counterexample: the line `copy:99999 item ID:A type:B
location:C` parses successfully, but rendering the parsed value and
parsing the rendered line again fails entirely (the 5-digit copies value
fills its column, so no whitespace separates it from the `item ID:` label
and the pattern no longer matches), so the round trip does not yield the
same fields. -/
theorem copyLine_roundTrip_cex :
    CopyLine.parse "copy:99999 item ID:A type:B location:C".toList
        = some { copies := 99999, item_id := "A".toList, ctype := "B".toList,
                 location := "C".toList } ∧
    CopyLine.parse (CopyLine.render
        { copies := 99999, item_id := "A".toList, ctype := "B".toList,
          location := "C".toList }) = none := by
  constructor
  · decide
  · decide

/-- Claim C1 (amended): the CopyLine round trip holds for every
successfully parsed line whose rendered fields leave at least one padding
space before the next label — `str(copies)` at most 4 characters,
`item_id` at most 17, `type` at most 11 (the trailing `location` field is
unconstrained).  Then re-parsing the rendered line yields the same
`copies`, `item_id`, `type` and `location` (hence the same
`main_location` and `sub_location`, which are functions of `location`). -/
theorem copyLine_roundTrip (line : List Char) (cl : CopyLine)
    (h : CopyLine.parse line = some cl)
    (hd : (natRepr cl.copies).length ≤ 4)
    (hil : cl.item_id.length ≤ 17)
    (htl : cl.ctype.length ≤ 11) :
    CopyLine.parse cl.render = some cl := by
  obtain ⟨hi, ht, hl⟩ := copyLine_parse_inv h
  exact copyLine_reparse cl hi.1 hi.2 ht.1 ht.2 hl.1 hl.2 hd hil htl

/-- Witness for the amended claim C1 at the spec's own example line. -/
theorem copyLine_roundTrip_witness :
    CopyLine.parse (CopyLine.render
        { copies := 2, item_id := "ABC123".toList, ctype := "BOOK".toList,
          location := "FIC-A".toList })
      = some { copies := 2, item_id := "ABC123".toList, ctype := "BOOK".toList,
               location := "FIC-A".toList } :=
  copyLine_roundTrip
    "copy:2   item ID:ABC123   type:BOOK   location:FIC-A".toList
    { copies := 2, item_id := "ABC123".toList, ctype := "BOOK".toList,
      location := "FIC-A".toList }
    (by decide) (by decide) (by decide) (by decide)

